import Mathlib

/-!
Shallow embedding of `pyabc/petab/amici.py`, centred on the
`AmiciPyABCModel` class: its `__call__` evaluation, and its
`__getstate__` / `__setstate__` pickling protocol, together with the
module-level import environment that name resolution consults.
-/

namespace PyabcPetabAmici

/-! ### Python dicts as insertion-ordered association lists -/

/-- Python `d[k]` lookup: the value of the first entry holding key `k`. -/
def dget {α : Type} : List (String × α) → String → Option α
  | [], _ => none
  | (k', v) :: t, k => if k' = k then some v else dget t k

/-- Python `d[k] = v`: update the first entry holding `k` in place,
else append `(k, v)` at the end (insertion order preserved). -/
def dset {α : Type} : List (String × α) → String → α → List (String × α)
  | [], k, v => [(k, v)]
  | (k', v') :: t, k, v => if k' = k then (k, v) :: t else (k', v') :: dset t k v

/-- Apply a list of `d[k] = v` updates in order (a Python `for` loop of
assignments, or a dict comprehension when starting from `[]`). -/
def dsetAll {α : Type} (d : List (String × α)) (ps : List (String × α)) :
    List (String × α) :=
  ps.foldl (fun d kv => dset d kv.1 kv.2) d

/-- Build a dict from a list of pairs by repeated `d[k] = v`
(Python `{key: val for key, val in pairs}`). -/
def dictOf {α : Type} (ps : List (String × α)) : List (String × α) :=
  dsetAll [] ps

theorem dget_dset_self {α : Type} (d : List (String × α)) (k : String) (v : α) :
    dget (dset d k v) k = some v := by
  induction d with
  | nil => simp [dget, dset]
  | cons kv t ih =>
    obtain ⟨k', v'⟩ := kv
    by_cases h : k' = k <;> simp [dget, dset, h, ih]

theorem dget_dset_ne {α : Type} (d : List (String × α)) (k k' : String) (v : α)
    (h : k ≠ k') : dget (dset d k v) k' = dget d k' := by
  induction d with
  | nil => simp [dget, dset, h]
  | cons kv t ih =>
    obtain ⟨k₀, v₀⟩ := kv
    by_cases h₀ : k₀ = k
    · subst h₀
      simp [dget, dset, h]
    · by_cases h₁ : k₀ = k'
      · subst h₁
        simp [dget, dset, h₀, Ne.symm h]
      · simp [dget, dset, h₀, h₁, ih]

theorem dget_dsetAll_not_mem {α : Type} (ps : List (String × α)) :
    ∀ (d : List (String × α)) (k : String), k ∉ ps.map Prod.fst →
    dget (dsetAll d ps) k = dget d k := by
  induction ps with
  | nil => intro d k _; rfl
  | cons kv t ih =>
    intro d k hk
    obtain ⟨k', v'⟩ := kv
    simp only [List.map_cons, List.mem_cons, not_or] at hk
    have : dsetAll d ((k', v') :: t) = dsetAll (dset d k' v') t := rfl
    rw [this, ih (dset d k' v') k hk.2, dget_dset_ne]
    exact fun h => hk.1 h.symm

theorem dget_dsetAll_mem {α : Type} (ps : List (String × α)) :
    ∀ (d : List (String × α)) (k : String) (v : α), (k, v) ∈ ps →
    (ps.map Prod.fst).Nodup → dget (dsetAll d ps) k = some v := by
  induction ps with
  | nil => intro d k v h _; cases h
  | cons kv t ih =>
    intro d k v hmem hnd
    obtain ⟨k', v'⟩ := kv
    simp only [List.map_cons, List.nodup_cons] at hnd
    have hstep : dsetAll d ((k', v') :: t) = dsetAll (dset d k' v') t := rfl
    rcases List.mem_cons.mp hmem with heq | hmem'
    · obtain ⟨rfl, rfl⟩ := Prod.mk.injEq .. ▸ heq
      rw [hstep, dget_dsetAll_not_mem t _ _ hnd.1, dget_dset_self]
    · rw [hstep]
      exact ih _ _ _ hmem' hnd.2

/-- The keys of a `zip` of a duplicate-free id list with a value list are
duplicate-free. -/
theorem zip_map_fst_nodup {α : Type} :
    ∀ (a : List String) (b : List α), a.Nodup → ((a.zip b).map Prod.fst).Nodup := by
  intro a
  induction a with
  | nil => intro b _; simp
  | cons x a' ih =>
    intro b hnd
    cases b with
    | nil => simp
    | cons y b' =>
      simp only [List.nodup_cons] at hnd
      simp only [List.zip_cons_cons, List.map_cons, List.nodup_cons]
      constructor
      · intro hx
        rcases List.mem_map.mp hx with ⟨⟨p, q⟩, hp, hfst⟩
        exact hnd.1 (hfst ▸ (List.of_mem_zip hp).1)
      · exact ih b' hnd.2

/-! ### The data model of `AmiciPyABCModel.__call__` -/

/-- One entry of the raw per-condition simulation output (`rdata`): the
simulated observable trajectory `rdata['y']`, plus the rest of the raw
result object kept opaque. -/
structure RData where
  y : List (List ℚ)
  rest : ℕ
deriving DecidableEq

/-- The return structure of `simulate_petab`: the scalar log-likelihood
`sim[LLH]` and the per-condition raw results `sim[RDATAS]`
(`LLH = 'llh'`, `RDATAS = 'rdatas'` in `amici.petab_objective`). -/
structure SimResult where
  llh : ℚ
  rdatas : List RData
deriving DecidableEq

/-- Values stored in the result mapping returned by `__call__`. -/
inductive Val where
  | num (x : ℚ)
  | traj (y : List (List ℚ))
  | rlist (rs : List RData)
deriving DecidableEq

/-- The attributes of `AmiciPyABCModel` (its `__dict__` after `__init__`,
in assignment order). `petab_problem`, `amici_model` and `amici_solver`
are handles of external library objects, kept opaque. -/
structure AmiciPyABCModel where
  petab_problem : ℕ
  amici_model : ℕ
  amici_solver : ℕ
  x_ids : List String
  x_fixed_ids : List String
  x_fixed_vals : List ℚ
  return_simulations : Bool
  return_rdatas : Bool
deriving DecidableEq

/-- `simulate_petab(petab_problem=…, amici_model=…, solver=…,
problem_parameters=…, scaled_parameters=…)`: an external call, modelled as
an arbitrary function of exactly the arguments the source passes. -/
def SimFun : Type :=
  ℕ → ℕ → ℕ → List (String × ℚ) → Bool → SimResult

/-- The argument of `__call__`: a `Sequence` or a `Mapping`. -/
inductive ParIn where
  | seq (vals : List ℚ)
  | map (m : List (String × ℚ))
deriving DecidableEq

/-- Input normalization in `__call__`: a non-`Mapping` argument is zipped
positionally against `self.x_ids` into a dict
(`par = {key: val for key, val in zip(self.x_ids, par)}`); a mapping is
used as-is. The preceding `copy.deepcopy` is the identity on values. -/
def normalizePar (M : AmiciPyABCModel) : ParIn → List (String × ℚ)
  | .map m => m
  | .seq vs => dictOf (M.x_ids.zip vs)

/-- The fixed-parameter merge of `__call__`:
`for key, val in zip(self.x_fixed_ids, self.x_fixed_vals): par[key] = val`. -/
def mergedPar (M : AmiciPyABCModel) (par : ParIn) : List (String × ℚ) :=
  dsetAll (normalizePar M par) (M.x_fixed_ids.zip M.x_fixed_vals)

/-- The result key `f'y_{i_rdata}'`. -/
def yKey (i : ℕ) : String := "y_" ++ Nat.repr i

/-- Result shaping of `__call__` from the `simulate_petab` output:
`ret = {'llh': sim[LLH]}`, then `ret[f'y_{i_rdata}'] = rdata['y']` per
enumerated rdata if `return_simulations`, then `ret[RDATAS] = sim[RDATAS]`
if `return_rdatas`. -/
def shapeResult (M : AmiciPyABCModel) (s : SimResult) : List (String × Val) :=
  let ret := [("llh", Val.num s.llh)]
  let ret := if M.return_simulations then
      s.rdatas.enum.foldl (fun r p => dset r (yKey p.1) (Val.traj p.2.y)) ret
    else ret
  if M.return_rdatas then dset ret "rdatas" (Val.rlist s.rdatas) else ret

/-- `AmiciPyABCModel.__call__`. -/
def callModel (simulate : SimFun) (M : AmiciPyABCModel) (par : ParIn) :
    List (String × Val) :=
  shapeResult M
    (simulate M.petab_problem M.amici_model M.amici_solver (mergedPar M par) true)

/-- Claim C2: whatever the caller passes (also a mapping whose keys overlap
the fixed-id set), the merged mapping handed to `simulate_petab` assigns
every fixed id its stored nominal value, silently overwriting any caller
value for that id; and `__call__` forwards exactly this merged mapping. -/
theorem fixed_parameter_merge_overrides (simulate : SimFun)
    (M : AmiciPyABCModel) (par : ParIn) (id : String) (v : ℚ)
    (hnd : M.x_fixed_ids.Nodup)
    (hmem : (id, v) ∈ M.x_fixed_ids.zip M.x_fixed_vals) :
    dget (mergedPar M par) id = some v ∧
    callModel simulate M par = shapeResult M
      (simulate M.petab_problem M.amici_model M.amici_solver
        (mergedPar M par) true) := by
  refine ⟨?_, rfl⟩
  exact dget_dsetAll_mem _ _ _ _ hmem (zip_map_fst_nodup _ _ hnd)

theorem fixed_parameter_merge_overrides_witness :
    dget (mergedPar ⟨0, 0, 0, ["a"], ["b"], [(2 : ℚ)], false, false⟩
        (.map [("b", (5 : ℚ))])) "b" = some 2 ∧
    callModel (fun _ _ _ _ _ => ⟨0, []⟩)
        ⟨0, 0, 0, ["a"], ["b"], [(2 : ℚ)], false, false⟩
        (.map [("b", (5 : ℚ))]) = shapeResult
        ⟨0, 0, 0, ["a"], ["b"], [(2 : ℚ)], false, false⟩
        ((fun _ _ _ _ _ => (⟨0, []⟩ : SimResult)) 0 0 0
          (mergedPar ⟨0, 0, 0, ["a"], ["b"], [(2 : ℚ)], false, false⟩
            (.map [("b", (5 : ℚ))])) true) :=
  fixed_parameter_merge_overrides (fun _ _ _ _ _ => ⟨0, []⟩)
    ⟨0, 0, 0, ["a"], ["b"], [(2 : ℚ)], false, false⟩
    (.map [("b", (5 : ℚ))]) "b" 2 (by decide) (by decide)

/-- Claim C3: a free-parameter sequence of the stored free-id list's length
and the mapping obtained by zipping the free-parameter ids with the
sequence's values evaluate to identical result mappings. -/
theorem sequence_mapping_equivalence (simulate : SimFun)
    (M : AmiciPyABCModel) (vs : List ℚ) (h : vs.length = M.x_ids.length) :
    callModel simulate M (.seq vs)
      = callModel simulate M (.map (dictOf (M.x_ids.zip vs))) := rfl

theorem sequence_mapping_equivalence_witness :
    callModel (fun _ _ _ p _ => ⟨(p.map Prod.snd).sum, []⟩)
        ⟨0, 0, 0, ["a"], [], [], false, false⟩ (.seq [(3 : ℚ)])
      = callModel (fun _ _ _ p _ => ⟨(p.map Prod.snd).sum, []⟩)
        ⟨0, 0, 0, ["a"], [], [], false, false⟩
        (.map (dictOf (List.zip ["a"] [(3 : ℚ)]))) :=
  sequence_mapping_equivalence (fun _ _ _ p _ => ⟨(p.map Prod.snd).sum, []⟩)
    ⟨0, 0, 0, ["a"], [], [], false, false⟩ [(3 : ℚ)] (by decide)

/-- Claim C5: with `return_simulations = False` and `return_rdatas = False`
the result mapping is exactly the singleton holding the scalar
log-likelihood under the key `'llh'`, and no other keys. -/
theorem result_only_llh (simulate : SimFun) (M : AmiciPyABCModel)
    (par : ParIn) (h1 : M.return_simulations = false)
    (h2 : M.return_rdatas = false) :
    callModel simulate M par
      = [("llh", Val.num (simulate M.petab_problem M.amici_model
          M.amici_solver (mergedPar M par) true).llh)] := by
  simp [callModel, shapeResult, h1, h2]

theorem result_only_llh_witness :
    callModel (fun _ _ _ _ _ => ⟨7, []⟩)
        ⟨0, 0, 0, ["a"], [], [], false, false⟩ (.seq [(3 : ℚ)])
      = [("llh", Val.num (7 : ℚ))] :=
  result_only_llh (fun _ _ _ _ _ => ⟨7, []⟩)
    ⟨0, 0, 0, ["a"], [], [], false, false⟩ (.seq [(3 : ℚ)]) rfl rfl

/-! ### Aliasing model for the defensive deep copy in `__call__` -/

/-- A heap of the Python objects involved in a call: addresses are list
indices, allocation appends at the end. -/
abbrev Store : Type := List ParIn

/-- `obj[key] = val` through the reference at address `a` (mutation in
place; a no-op on non-dicts, which never arises on the traced path). -/
def storeSetItem (s : Store) (a : ℕ) (k : String) (v : ℚ) : Store :=
  match List.get? s a with
  | some (.map d) => List.set s a (.map (dset d k v))
  | _ => s

theorem get?_set_of_ne {α : Type} :
    ∀ (l : List α) (i j : ℕ) (v : α), i ≠ j →
    List.get? (List.set l i v) j = List.get? l j := by
  intro l
  induction l with
  | nil => intro i j v _; cases i <;> rfl
  | cons x t ih =>
    intro i j v hij
    cases i with
    | zero =>
      cases j with
      | zero => exact absurd rfl hij
      | succ j => rfl
    | succ i =>
      cases j with
      | zero => rfl
      | succ j => exact ih i j v (fun h => hij (congrArg Nat.succ h))

theorem get?_set_self {α : Type} :
    ∀ (l : List α) (i : ℕ) (v : α), i < l.length →
    List.get? (List.set l i v) i = some v := by
  intro l
  induction l with
  | nil => intro i v h; cases h
  | cons x t ih =>
    intro i v h
    cases i with
    | zero => rfl
    | succ i => exact ih i v (Nat.lt_of_succ_lt_succ h)

theorem get?_append_left {α : Type} :
    ∀ (l t : List α) (i : ℕ), i < l.length →
    List.get? (l ++ t) i = List.get? l i := by
  intro l
  induction l with
  | nil => intro t i h; cases h
  | cons x l' ih =>
    intro t i h
    cases i with
    | zero => rfl
    | succ i => exact ih t i (Nat.lt_of_succ_lt_succ h)

theorem get?_concat_self {α : Type} :
    ∀ (l : List α) (x : α), List.get? (l ++ [x]) l.length = some x := by
  intro l x
  induction l with
  | nil => rfl
  | cons y l' ih => exact ih

theorem storeSetItem_get?_ne (s : Store) (a b : ℕ) (k : String) (v : ℚ)
    (h : a ≠ b) : List.get? (storeSetItem s a k v) b = List.get? s b := by
  unfold storeSetItem
  cases hs : List.get? s a with
  | none => rfl
  | some p =>
    cases p with
    | seq vs => rfl
    | map d => exact get?_set_of_ne s a b _ h

theorem foldl_setItem_get?_ne (ps : List (String × ℚ)) :
    ∀ (s : Store) (a b : ℕ), a ≠ b →
    List.get? (ps.foldl (fun st kv => storeSetItem st a kv.1 kv.2) s) b
      = List.get? s b := by
  induction ps with
  | nil => intro s a b _; rfl
  | cons kv t ih =>
    intro s a b h
    have : ((kv :: t).foldl (fun st p => storeSetItem st a p.1 p.2) s)
        = t.foldl (fun st p => storeSetItem st a p.1 p.2)
            (storeSetItem s a kv.1 kv.2) := rfl
    rw [this, ih _ a b h, storeSetItem_get?_ne s a b _ _ h]

theorem foldl_setItem_get?_map (ps : List (String × ℚ)) :
    ∀ (s : Store) (a : ℕ) (d : List (String × ℚ)),
    List.get? s a = some (.map d) →
    List.get? (ps.foldl (fun st kv => storeSetItem st a kv.1 kv.2) s) a
      = some (.map (dsetAll d ps)) := by
  induction ps with
  | nil => intro s a d h; exact h
  | cons kv t ih =>
    intro s a d h
    have ha : a < s.length := by
      cases hlt : Nat.decLt a s.length with
      | isTrue hl => exact hl
      | isFalse hl =>
        exfalso
        rw [List.get?_eq_none.mpr (Nat.le_of_not_lt hl)] at h
        cases h
    have hstep : storeSetItem s a kv.1 kv.2
        = List.set s a (.map (dset d kv.1 kv.2)) := by
      unfold storeSetItem
      rw [h]
    have hfold : ((kv :: t).foldl (fun st p => storeSetItem st a p.1 p.2) s)
        = t.foldl (fun st p => storeSetItem st a p.1 p.2)
            (storeSetItem s a kv.1 kv.2) := rfl
    rw [hfold, hstep]
    have := ih (List.set s a (.map (dset d kv.1 kv.2))) a (dset d kv.1 kv.2)
      (get?_set_self s a _ ha)
    rw [this]
    rfl

/-- `AmiciPyABCModel.__call__` with the caller's argument held in a heap
and passed by reference: `par = copy.deepcopy(par)` allocates a fresh
object of equal value; the non-`Mapping` branch allocates the dict built
by the comprehension; the fixed-parameter loop mutates through the
reference; `simulate_petab` receives the mutated working dict. -/
def callModelST (simulate : SimFun) (M : AmiciPyABCModel) (s : Store)
    (a : ℕ) : Store × List (String × Val) :=
  let v0 := (List.get? s a).getD (.map [])
  let s1 := s ++ [v0]
  let a1 := s.length
  let sa2 : Store × ℕ :=
    match v0 with
    | .seq vs => (s1 ++ [.map (dictOf (M.x_ids.zip vs))], s1.length)
    | .map _ => (s1, a1)
  let s3 := (M.x_fixed_ids.zip M.x_fixed_vals).foldl
    (fun st kv => storeSetItem st sa2.2 kv.1 kv.2) sa2.1
  let pfinal := match List.get? s3 sa2.2 with
    | some (.map d) => d
    | _ => []
  (s3, shapeResult M
    (simulate M.petab_problem M.amici_model M.amici_solver pfinal true))

/-- Claim C4: evaluation deep-copies its argument before the
fixed-parameter merge mutates the working copy, so the caller's object at
address `a` is unchanged after the call; moreover the call returns exactly
the value-level result of `__call__` on the stored argument. -/
theorem caller_argument_unchanged (simulate : SimFun) (M : AmiciPyABCModel)
    (s : Store) (a : ℕ) (h : a < s.length) :
    List.get? ((callModelST simulate M s a).1) a = List.get? s a ∧
    (callModelST simulate M s a).2
      = callModel simulate M ((List.get? s a).getD (.map [])) := by
  have ⟨v0, hv0⟩ : ∃ v0, List.get? s a = some v0 := by
    cases hg : List.get? s a with
    | none =>
      exfalso
      exact absurd (List.get?_eq_none.mp hg) (Nat.not_le_of_lt h)
    | some v => exact ⟨v, rfl⟩
  cases v0 with
  | map m =>
    refine ⟨?_, ?_⟩ <;> simp only [callModelST, hv0, Option.getD_some]
    · rw [foldl_setItem_get?_ne _ _ _ _ (Nat.ne_of_gt h),
        get?_append_left s _ a h, hv0]
    · have hb : List.get? (s ++ [ParIn.map m]) s.length = some (.map m) :=
        get?_concat_self s _
      rw [foldl_setItem_get?_map _ _ _ _ hb]
      rfl
  | seq vs =>
    refine ⟨?_, ?_⟩ <;> simp only [callModelST, hv0, Option.getD_some]
    · rw [foldl_setItem_get?_ne _ _ _ _
          (Nat.ne_of_gt (by simpa using Nat.lt_succ_of_lt h))]
      rw [get?_append_left _ _ a (by simpa using Nat.lt_succ_of_lt h),
        get?_append_left s _ a h, hv0]
    · have hb : List.get? ((s ++ [ParIn.seq vs])
            ++ [ParIn.map (dictOf (M.x_ids.zip vs))])
          (s ++ [ParIn.seq vs]).length
          = some (.map (dictOf (M.x_ids.zip vs))) :=
        get?_concat_self _ _
      rw [foldl_setItem_get?_map _ _ _ _ hb]
      rfl

theorem caller_argument_unchanged_witness :
    List.get? ((callModelST (fun _ _ _ _ _ => ⟨0, []⟩)
        ⟨0, 0, 0, ["a"], ["b"], [(2 : ℚ)], false, false⟩
        [ParIn.map [("b", (5 : ℚ))]] 0).1) 0
      = List.get? [ParIn.map [("b", (5 : ℚ))]] 0 ∧
    (callModelST (fun _ _ _ _ _ => ⟨0, []⟩)
        ⟨0, 0, 0, ["a"], ["b"], [(2 : ℚ)], false, false⟩
        [ParIn.map [("b", (5 : ℚ))]] 0).2
      = callModel (fun _ _ _ _ _ => ⟨0, []⟩)
        ⟨0, 0, 0, ["a"], ["b"], [(2 : ℚ)], false, false⟩
        ((List.get? [ParIn.map [("b", (5 : ℚ))]] 0).getD (.map [])) :=
  caller_argument_unchanged (fun _ _ _ _ _ => ⟨0, []⟩)
    ⟨0, 0, 0, ["a"], ["b"], [(2 : ℚ)], false, false⟩
    [ParIn.map [("b", (5 : ℚ))]] 0 (by decide)

/-! ### Injectivity of the decimal index in the `f'y_{i_rdata}'` keys -/

theorem toDigitsCore_digits (b : ℕ) (hb : 2 ≤ b) :
    ∀ (f n : ℕ) (acc : List Char), 0 < n → n < f →
    Nat.toDigitsCore b f n acc
      = ((Nat.digits b n).map Nat.digitChar).reverse ++ acc := by
  intro f
  induction f with
  | zero => intro n acc _ hf; cases hf
  | succ f ih =>
    intro n acc hn hf
    rw [Nat.digits_def' (by omega : 1 < b) hn]
    by_cases hdiv : n / b = 0
    · have : Nat.digits b (n / b) = [] := by rw [hdiv]; exact Nat.digits_zero b
      simp [Nat.toDigitsCore, hdiv, this]
    · have hpos : 0 < n / b := Nat.pos_of_ne_zero hdiv
      have hlt : n / b < f :=
        Nat.lt_of_lt_of_le (Nat.div_lt_self hn (by omega : 1 < b))
          (Nat.le_of_lt_succ hf)
      simp only [Nat.toDigitsCore, hdiv, if_false]
      rw [ih (n / b) (Nat.digitChar (n % b) :: acc) hpos hlt]
      simp

theorem repr_eq_digits (n : ℕ) (hn : 0 < n) :
    (Nat.repr n).data = ((Nat.digits 10 n).map Nat.digitChar).reverse := by
  show (Nat.toDigits 10 n).asString.data = _
  rw [Nat.toDigits,
    toDigitsCore_digits 10 (by omega) (n + 1) n [] hn (Nat.lt_succ_self n)]
  simp [List.asString]

theorem map_digitChar_inj :
    ∀ (l1 l2 : List ℕ), (∀ d ∈ l1, d < 10) → (∀ d ∈ l2, d < 10) →
    l1.map Nat.digitChar = l2.map Nat.digitChar → l1 = l2 := by
  have hchar : ∀ a, a < 10 → ∀ c, c < 10 →
      Nat.digitChar a = Nat.digitChar c → a = c := by decide
  intro l1
  induction l1 with
  | nil =>
    intro l2 _ _ h
    cases l2 with
    | nil => rfl
    | cons x t => cases h
  | cons x t ih =>
    intro l2 h1 h2 h
    cases l2 with
    | nil => cases h
    | cons y u =>
      simp only [List.map_cons, List.cons.injEq] at h
      have hx := h1 x (List.mem_cons_self x t)
      have hy := h2 y (List.mem_cons_self y u)
      have : x = y := hchar x hx y hy h.1
      subst this
      rw [ih u (fun d hd => h1 d (List.mem_cons_of_mem x hd))
        (fun d hd => h2 d (List.mem_cons_of_mem x hd)) h.2]

theorem digits_all_lt (n : ℕ) : ∀ d ∈ Nat.digits 10 n, d < 10 :=
  fun _ hd => Nat.digits_lt_base (by omega) hd

theorem repr_injective : Function.Injective Nat.repr := by
  have hdigits : ∀ m n : ℕ, Nat.digits 10 m = Nat.digits 10 n → m = n := by
    intro m n h
    have := congrArg (Nat.ofDigits 10) h
    rwa [Nat.ofDigits_digits, Nat.ofDigits_digits] at this
  have hzero : ∀ n : ℕ, 0 < n → Nat.repr 0 ≠ Nat.repr n := by
    intro n hn h
    have hdata := congrArg String.data h
    rw [repr_eq_digits n hn] at hdata
    have h0 : (Nat.repr 0).data = ['0'] := by decide
    rw [h0] at hdata
    have hrev := congrArg List.reverse hdata
    simp only [List.reverse_reverse] at hrev
    have : ([0] : List ℕ).map Nat.digitChar = (Nat.digits 10 n).map Nat.digitChar := by
      simpa using hrev
    have hd : ([0] : List ℕ) = Nat.digits 10 n :=
      map_digitChar_inj [0] _ (by decide) (digits_all_lt n) this
    have hofd := Nat.ofDigits_digits 10 n
    rw [← hd] at hofd
    simp only [Nat.ofDigits_cons, Nat.ofDigits_nil, Nat.cast_zero,
      Nat.mul_zero, Nat.add_zero, Nat.zero_add, Nat.mul_eq, Nat.zero_eq] at hofd
    omega
  intro m n h
  rcases Nat.eq_zero_or_pos m with rfl | hm
  · rcases Nat.eq_zero_or_pos n with rfl | hn
    · rfl
    · exact absurd h (hzero n hn)
  · rcases Nat.eq_zero_or_pos n with rfl | hn
    · exact absurd h.symm (hzero m hm)
    · have hdata := congrArg String.data h
      rw [repr_eq_digits m hm, repr_eq_digits n hn] at hdata
      have hrev := congrArg List.reverse hdata
      simp only [List.reverse_reverse] at hrev
      exact hdigits m n
        (map_digitChar_inj _ _ (digits_all_lt m) (digits_all_lt n) hrev)

theorem yKey_data (i : ℕ) : (yKey i).data = 'y' :: '_' :: (Nat.repr i).data := by
  show ("y_" ++ Nat.repr i).data = _
  rw [String.data_append]
  rfl

theorem yKey_injective : Function.Injective yKey := by
  intro i j h
  have hdata := congrArg String.data h
  rw [yKey_data, yKey_data] at hdata
  simp only [List.cons.injEq, true_and] at hdata
  have : Nat.repr i = Nat.repr j := by
    cases hri : Nat.repr i with
    | mk d1 =>
      cases hrj : Nat.repr j with
      | mk d2 =>
        rw [hri, hrj] at hdata
        exact congrArg String.mk hdata
  exact repr_injective this

theorem yKey_ne_llh (i : ℕ) : yKey i ≠ "llh" := by
  intro h
  have hdata := congrArg String.data h
  rw [yKey_data] at hdata
  have : ("llh" : String).data = ['l', 'l', 'h'] := by decide
  rw [this] at hdata
  cases hdata

theorem yKey_ne_rdatas (i : ℕ) : yKey i ≠ "rdatas" := by
  intro h
  have hdata := congrArg String.data h
  rw [yKey_data] at hdata
  have : ("rdatas" : String).data = ['r', 'd', 'a', 't', 'a', 's'] := by decide
  rw [this] at hdata
  cases hdata

/-! ### Key structure of the result mapping -/

theorem dset_eq_append {α : Type} :
    ∀ (d : List (String × α)) (k : String) (v : α), k ∉ d.map Prod.fst →
    dset d k v = d ++ [(k, v)] := by
  intro d
  induction d with
  | nil => intro k v _; rfl
  | cons kv t ih =>
    intro k v hk
    obtain ⟨k', v'⟩ := kv
    simp only [List.map_cons, List.mem_cons, not_or] at hk
    have hne : k' ≠ k := fun h => hk.1 h.symm
    simp only [dset, if_neg hne, List.cons_append, List.cons.injEq, true_and]
    exact ih k v hk.2

theorem dsetAll_eq_append {α : Type} :
    ∀ (ps : List (String × α)) (d : List (String × α)),
    (∀ k ∈ ps.map Prod.fst, k ∉ d.map Prod.fst) →
    (ps.map Prod.fst).Nodup → dsetAll d ps = d ++ ps := by
  intro ps
  induction ps with
  | nil => intro d _ _; simp [dsetAll]
  | cons kv t ih =>
    intro d hfresh hnd
    obtain ⟨k, v⟩ := kv
    simp only [List.map_cons, List.nodup_cons] at hnd
    have hstep : dsetAll d ((k, v) :: t) = dsetAll (dset d k v) t := rfl
    have hk : k ∉ d.map Prod.fst :=
      hfresh k (by simp)
    rw [hstep, dset_eq_append d k v hk]
    rw [ih (d ++ [(k, v)]) ?_ hnd.2]
    · simp
    · intro k' hk'
      simp only [List.map_append, List.mem_append, List.map_cons,
        List.map_nil, List.mem_singleton, not_or]
      refine ⟨hfresh k' (by simp [hk']), ?_⟩
      intro hcontr
      exact hnd.1 (hcontr ▸ hk')

theorem dget_of_mem_nodup {α : Type} :
    ∀ (d : List (String × α)) (k : String) (v : α), (k, v) ∈ d →
    (d.map Prod.fst).Nodup → dget d k = some v := by
  intro d
  induction d with
  | nil => intro k v h _; cases h
  | cons kv t ih =>
    intro k v hmem hnd
    obtain ⟨k', v'⟩ := kv
    simp only [List.map_cons, List.nodup_cons] at hnd
    rcases List.mem_cons.mp hmem with heq | hmem'
    · obtain ⟨rfl, rfl⟩ := Prod.mk.injEq .. ▸ heq
      simp [dget]
    · have hne : k' ≠ k := by
        intro hcontr
        subst hcontr
        exact hnd.1 (List.mem_map.mpr ⟨(k', v), hmem', rfl⟩)
      simp only [dget, if_neg hne]
      exact ih k v hmem' hnd.2

/-- The per-condition entries written by the `return_simulations` loop. -/
def yEntries (rs : List RData) : List (String × Val) :=
  rs.enum.map fun p => (yKey p.1, Val.traj p.2.y)

theorem yEntries_keys (rs : List RData) :
    (yEntries rs).map Prod.fst = (List.range rs.length).map yKey := by
  simp [yEntries, List.map_map]
  rw [show (Prod.fst ∘ fun p : ℕ × RData => (yKey p.1, Val.traj p.2.y))
      = yKey ∘ Prod.fst from rfl]
  rw [← List.map_map, List.enum_map_fst]

theorem yEntries_keys_nodup (rs : List RData) :
    ((yEntries rs).map Prod.fst).Nodup := by
  rw [yEntries_keys]
  exact (List.nodup_range _).map yKey_injective

/-- With `return_simulations` on, the enumeration loop appends one fresh
entry per rdata after the `'llh'` entry. -/
theorem shapeResult_simulations (M : AmiciPyABCModel) (s : SimResult)
    (hsim : M.return_simulations = true) :
    shapeResult M s = (("llh", Val.num s.llh) :: yEntries s.rdatas)
      ++ (if M.return_rdatas then [("rdatas", Val.rlist s.rdatas)] else []) := by
  have hfold : s.rdatas.enum.foldl
      (fun r p => dset r (yKey p.1) (Val.traj p.2.y))
      [("llh", Val.num s.llh)]
      = dsetAll [("llh", Val.num s.llh)] (yEntries s.rdatas) := by
    rw [yEntries, dsetAll, List.foldl_map]
  have happ : dsetAll [("llh", Val.num s.llh)] (yEntries s.rdatas)
      = ("llh", Val.num s.llh) :: yEntries s.rdatas := by
    rw [dsetAll_eq_append _ _ ?_ (yEntries_keys_nodup s.rdatas)]
    · rfl
    · intro k hk
      rw [yEntries_keys] at hk
      rcases List.mem_map.mp hk with ⟨i, _, rfl⟩
      simpa using yKey_ne_llh i
  have hfresh : "rdatas" ∉ (("llh", Val.num s.llh) :: yEntries s.rdatas).map
      Prod.fst := by
    simp only [List.map_cons, List.mem_cons, not_or]
    refine ⟨by decide, ?_⟩
    rw [yEntries_keys]
    intro hk
    rcases List.mem_map.mp hk with ⟨i, _, hcontr⟩
    exact yKey_ne_rdatas i hcontr
  cases hrd : M.return_rdatas with
  | false => simp [shapeResult, hsim, hrd, hfold, happ]
  | true =>
    simp only [shapeResult, hsim, hrd, if_true, hfold, happ]
    rw [dset_eq_append _ _ _ hfresh]

theorem mem_yEntries (rs : List RData) (i : ℕ) (h : i < rs.length) :
    (yKey i, Val.traj (rs.get ⟨i, h⟩).y) ∈ yEntries rs := by
  have : (i, rs.get ⟨i, h⟩) ∈ rs.enum := by
    have henum : rs.enum.get? i = some (i, rs.get ⟨i, h⟩) := by
      rw [List.get?_enum]
      rw [List.get?_eq_get h]
      rfl
    exact List.get?_mem henum
  exact List.mem_map.mpr ⟨(i, rs.get ⟨i, h⟩), this, rfl⟩

/-- Claim C6: with `return_simulations = True`, the result mapping holds,
besides the `'llh'` entry (and the `'rdatas'` entry exactly when
`return_rdatas` is also on), exactly one key per simulation condition,
named `y_<index>`, bound to that condition's simulated observable
trajectory `rdata['y']`. -/
theorem result_keys_with_simulations (simulate : SimFun)
    (M : AmiciPyABCModel) (par : ParIn)
    (hsim : M.return_simulations = true) :
    (callModel simulate M par).map Prod.fst
      = "llh" :: (((List.range (simulate M.petab_problem M.amici_model
          M.amici_solver (mergedPar M par) true).rdatas.length).map yKey)
        ++ if M.return_rdatas then ["rdatas"] else []) ∧
    dget (callModel simulate M par) "llh"
      = some (Val.num (simulate M.petab_problem M.amici_model
          M.amici_solver (mergedPar M par) true).llh) ∧
    ∀ i (h : i < (simulate M.petab_problem M.amici_model M.amici_solver
        (mergedPar M par) true).rdatas.length),
      dget (callModel simulate M par) (yKey i)
        = some (Val.traj ((simulate M.petab_problem M.amici_model
            M.amici_solver (mergedPar M par) true).rdatas.get ⟨i, h⟩).y) := by
  set s := simulate M.petab_problem M.amici_model M.amici_solver
    (mergedPar M par) true with hs
  have hres : callModel simulate M par
      = (("llh", Val.num s.llh) :: yEntries s.rdatas)
        ++ (if M.return_rdatas then [("rdatas", Val.rlist s.rdatas)] else []) :=
    shapeResult_simulations M s hsim
  have hllh : "llh" ∉ (yEntries s.rdatas).map Prod.fst := by
    rw [yEntries_keys]
    intro hk
    rcases List.mem_map.mp hk with ⟨i, _, hcontr⟩
    exact yKey_ne_llh i hcontr
  have hrdatas : "rdatas" ∉ (yEntries s.rdatas).map Prod.fst := by
    rw [yEntries_keys]
    intro hk
    rcases List.mem_map.mp hk with ⟨i, _, hcontr⟩
    exact yKey_ne_rdatas i hcontr
  have hkeys_nodup : ((callModel simulate M par).map Prod.fst).Nodup := by
    rw [hres]
    cases hrd : M.return_rdatas with
    | false =>
      rw [if_neg Bool.false_ne_true, List.append_nil, List.map_cons]
      exact List.nodup_cons.mpr ⟨hllh, yEntries_keys_nodup s.rdatas⟩
    | true =>
      rw [if_pos rfl]
      simp only [List.map_append, List.map_cons, List.map_nil]
      rw [List.nodup_append]
      refine ⟨List.nodup_cons.mpr ⟨hllh, yEntries_keys_nodup s.rdatas⟩,
        List.nodup_singleton _, ?_⟩
      intro k hk hk2
      simp only [List.mem_singleton] at hk2
      subst hk2
      rcases List.mem_cons.mp hk with h1 | h2
      · exact absurd h1 (by decide)
      · exact hrdatas h2
  refine ⟨?_, ?_, ?_⟩
  · rw [hres]
    cases hrd : M.return_rdatas with
    | false => simp [yEntries_keys]
    | true => simp [yEntries_keys]
  · rw [hres]
    simp [dget]
  · intro i h
    refine dget_of_mem_nodup _ _ _ ?_ hkeys_nodup
    rw [hres]
    refine List.mem_append.mpr (Or.inl ?_)
    exact List.mem_cons_of_mem _ (mem_yEntries s.rdatas i h)

theorem result_keys_with_simulations_witness :
    (callModel (fun _ _ _ _ _ => ⟨7, [⟨[[1]], 0⟩, ⟨[[2]], 0⟩]⟩)
        ⟨0, 0, 0, ["a"], [], [], true, false⟩ (.seq [(3 : ℚ)])).map Prod.fst
      = ["llh", yKey 0, yKey 1] ∧
    dget (callModel (fun _ _ _ _ _ => ⟨7, [⟨[[1]], 0⟩, ⟨[[2]], 0⟩]⟩)
        ⟨0, 0, 0, ["a"], [], [], true, false⟩ (.seq [(3 : ℚ)])) "llh"
      = some (Val.num 7) ∧
    dget (callModel (fun _ _ _ _ _ => ⟨7, [⟨[[1]], 0⟩, ⟨[[2]], 0⟩]⟩)
        ⟨0, 0, 0, ["a"], [], [], true, false⟩ (.seq [(3 : ℚ)])) (yKey 0)
      = some (Val.traj [[1]]) ∧
    dget (callModel (fun _ _ _ _ _ => ⟨7, [⟨[[1]], 0⟩, ⟨[[2]], 0⟩]⟩)
        ⟨0, 0, 0, ["a"], [], [], true, false⟩ (.seq [(3 : ℚ)])) (yKey 1)
      = some (Val.traj [[2]]) := by
  have h := result_keys_with_simulations
    (fun _ _ _ _ _ => ⟨7, [⟨[[1]], 0⟩, ⟨[[2]], 0⟩]⟩)
    ⟨0, 0, 0, ["a"], [], [], true, false⟩ (.seq [(3 : ℚ)]) rfl
  exact ⟨h.1, h.2.1, h.2.2 0 (by decide), h.2.2 1 (by decide)⟩

/-! ### The pickling protocol: `__getstate__` / `__setstate__`

The module imports at the top of `pyabc/petab/amici.py` bind `logging`,
`Sequence`, `Mapping`, `Callable`, `Union`, `Dict`, `copy`, `pyabc`,
`PetabImporter`, `petab`, `amici` (with `amici.petab_import`,
`simulate_petab`, `LLH`, `RDATAS`) and the module-level definitions; they
never bind `tempfile` or `os`, although both `__getstate__` and
`__setstate__` use `tempfile.mkstemp`, `os.close` and `os.remove`.
Name resolution is modelled by passing the list of bound module-level
names; a lookup of an unbound name raises `NameError`. -/

/-- The names bound at module level of `pyabc/petab/amici.py`. -/
def moduleNames : List String :=
  ["logging", "Sequence", "Mapping", "Callable", "Union", "Dict", "copy",
   "pyabc", "PetabImporter", "logger", "petab", "amici", "simulate_petab",
   "LLH", "RDATAS", "AmiciPetabImporter", "AmiciPyABCModel"]

/-- An opaque byte string (the solver-settings HDF5 blob). -/
abbrev ByteStr : Type := List ℕ

/-- The Python exceptions the two methods can raise or propagate. -/
inductive PyErr where
  | nameError (n : String)
  | attributeError (args : List String)
  | keyError (k : String)
  | typeError (msg : String)
  | otherError (tag : ℕ)
deriving DecidableEq

/-- An attribute value in `AmiciPyABCModel.__dict__`. -/
inductive Attr where
  | nat (n : ℕ)
  | strs (l : List String)
  | nums (l : List ℚ)
  | bool (b : Bool)
  | bytes (b : ByteStr)
deriving DecidableEq

/-- `self.__dict__` of an `AmiciPyABCModel` after `__init__`
(assignment order; Python's `set` iteration order over the keys is
unspecified, so only the key set and values are meaningful). -/
def modelDict (M : AmiciPyABCModel) : List (String × Attr) :=
  [("petab_problem", .nat M.petab_problem),
   ("amici_model", .nat M.amici_model),
   ("amici_solver", .nat M.amici_solver),
   ("x_ids", .strs M.x_ids),
   ("x_fixed_ids", .strs M.x_fixed_ids),
   ("x_fixed_vals", .nums M.x_fixed_vals),
   ("return_simulations", .bool M.return_simulations),
   ("return_rdatas", .bool M.return_rdatas)]

/-- A temporary file created by `tempfile.mkstemp`: its path, whether the
descriptor is still open, whether the file is still on disk, and its
content. -/
structure TempEntry where
  path : ℕ
  fdOpen : Bool
  onDisk : Bool
  content : ByteStr
deriving DecidableEq

/-- The file-system state: the temporary files ever created (removal
marks `onDisk := false` rather than dropping the record, so leaks are
observable). -/
structure FS where
  temps : List TempEntry
deriving DecidableEq

/-- `tempfile.mkstemp()`: create a fresh open temp file, returning the
new state and the descriptor/path token. -/
def FS.mkstemp (fs : FS) : FS × ℕ :=
  (⟨fs.temps ++ [⟨fs.temps.length, true, true, []⟩]⟩, fs.temps.length)

/-- Write `b` as the content of the temp file `p`. -/
def FS.writeTo (fs : FS) (p : ℕ) (b : ByteStr) : FS :=
  ⟨fs.temps.map fun e => if e.path = p then { e with content := b } else e⟩

/-- Read the content of the temp file `p` (`open(_fd, 'rb').read()`). -/
def FS.readFrom (fs : FS) (p : ℕ) : ByteStr :=
  match fs.temps.find? (fun e => e.path == p) with
  | some e => e.content
  | none => []

/-- `os.close(_fd)`. -/
def FS.closeFd (fs : FS) (p : ℕ) : FS :=
  ⟨fs.temps.map fun e => if e.path = p then { e with fdOpen := false } else e⟩

/-- `os.remove(_file)`. -/
def FS.removeFile (fs : FS) (p : ℕ) : FS :=
  ⟨fs.temps.map fun e => if e.path = p then { e with onDisk := false } else e⟩

/-- No temp descriptor open and no temp file on disk. -/
def FS.cleanB (fs : FS) : Bool :=
  fs.temps.all fun e => !e.fdOpen && !e.onDisk

/-- The `finally` block shared by both methods:
`os.close(_fd); os.remove(_file)` — looking up `os` first; if `os` is
unbound the block itself raises `NameError`, replacing the in-flight
outcome and skipping the cleanup. -/
def finallyCleanup (env : List String) (fs : FS) (p : ℕ) :
    FS × Option PyErr :=
  if "os" ∈ env then (((fs.closeFd p).removeFile p), none)
  else (fs, some (.nameError "os"))

/-- The hint appended in `__getstate__`. -/
def hintPickle : String :=
  "Pickling the AmiciObjective requires an AMICI installation with HDF5 support."

/-- The hint appended in `__setstate__`. -/
def hintUnpickle : String :=
  "Unpickling an AmiciObjective requires an AMICI installation with HDF5 support."

/-- `except AttributeError as e: e.args += (hint,); raise` in
`__getstate__`; any other exception propagates uncaught. -/
def hintedGet : PyErr → PyErr
  | .attributeError args => .attributeError (args ++ [hintPickle])
  | e => e

/-- `except AttributeError as err: if not err.args: err.args = ('',);
err.args += (hint,); raise` in `__setstate__`; any other exception
propagates uncaught. -/
def hintedSet : PyErr → PyErr
  | .attributeError args =>
      .attributeError ((if args.isEmpty then [""] else args) ++ [hintUnpickle])
  | e => e

deriving instance DecidableEq for Except

/-- Outcomes of the external calls made by `__getstate__`:
`amici.writeSolverSettingsToHDF5` (on success, the settings blob it
writes) and the induced outcome of reading the temp file back. -/
structure GetstateWorld where
  writeSS : Except PyErr ByteStr
  readErr : Option PyErr
deriving DecidableEq

/-- `AmiciPyABCModel.__getstate__`, with the module-name environment
`env` consulted for `tempfile` and `os`. -/
def getstate (env : List String) (w : GetstateWorld) (M : AmiciPyABCModel)
    (fs : FS) : FS × Except PyErr (List (String × Attr)) :=
  let state := (modelDict M).filter fun kv =>
    kv.1 != "amici_model" && kv.1 != "amici_solver"
  if "tempfile" ∈ env then
    let fsp := fs.mkstemp
    let body : FS × Except PyErr (List (String × Attr)) :=
      match w.writeSS with
      | .error e => (fsp.1, .error (hintedGet e))
      | .ok content =>
        let fs2 := fsp.1.writeTo fsp.2 content
        match w.readErr with
        | some e => (fs2, .error e)
        | none => (fs2, .ok (dset state "amici_solver_settings"
            (.bytes (fs2.readFrom fsp.2))))
    match finallyCleanup env body.1 fsp.2 with
    | (fs3, some e) => (fs3, .error e)
    | (fs3, none) => (fs3, body.2)
  else
    (fs, .error (.nameError "tempfile"))

/-- Outcomes of the external calls made by `__setstate__`: the model
rebuilt by `amici.petab_import.import_petab_problem`, its fresh default
solver from `model.getSolver()` (configured in place by
`readSolverSettingsFromHDF5`, which does not change the handle), and the
induced outcomes of the temp-file write and of the settings import. -/
structure SetstateWorld where
  importedModel : ℕ
  defaultSolver : ℕ
  writeErr : Option PyErr
  readSSErr : Option PyErr
deriving DecidableEq

/-- `AmiciPyABCModel.__setstate__`: on success, the final `__dict__` of
the restored object (the snapshot entries, then
`self.amici_model = model; self.amici_solver = solver`). -/
def setstate (env : List String) (w : SetstateWorld)
    (state : List (String × Attr)) (fs : FS) :
    FS × Except PyErr (List (String × Attr)) :=
  if "tempfile" ∈ env then
    let fsp := fs.mkstemp
    let body : FS × Except PyErr Unit :=
      match dget state "amici_solver_settings" with
      | none => (fsp.1, .error (.keyError "amici_solver_settings"))
      | some (.bytes b) =>
        match w.writeErr with
        | some e => (fsp.1, .error e)
        | none =>
          let fs2 := fsp.1.writeTo fsp.2 b
          match w.readSSErr with
          | some e => (fs2, .error (hintedSet e))
          | none => (fs2, .ok ())
      | some _ => (fsp.1, .error (.typeError "a bytes-like object is required"))
    match finallyCleanup env body.1 fsp.2 with
    | (fs3, some e) => (fs3, .error e)
    | (fs3, none) =>
      match body.2 with
      | .error e => (fs3, .error e)
      | .ok _ => (fs3, .ok (dset (dset state "amici_model"
          (.nat w.importedModel)) "amici_solver" (.nat w.defaultSolver)))
  else
    (fs, .error (.nameError "tempfile"))

/-- `pickle.loads(pickle.dumps(M))` at the state level: capture, then
restore the captured snapshot; an exception in capture propagates. -/
def pickleRoundtrip (env : List String) (w : GetstateWorld)
    (w2 : SetstateWorld) (M : AmiciPyABCModel) (fs : FS) :
    Except PyErr (List (String × Attr)) :=
  match getstate env w M fs with
  | (_, .error e) => .error e
  | (fs1, .ok st) => (setstate env w2 st fs1).2

/-- Claim C10: under the module's actual import environment, which binds
neither `tempfile` nor `os`, every invocation of `__getstate__` and every
invocation of `__setstate__` raises `NameError` for `tempfile` at
`tempfile.mkstemp()` — before the solver-settings export/import call is
reached (the result is the same for every oracle outcome of those calls)
and without touching the file system; in particular capture never
returns a snapshot. -/
theorem pickling_raises_nameerror (w : GetstateWorld) (w2 : SetstateWorld)
    (M : AmiciPyABCModel) (state : List (String × Attr)) (fs : FS) :
    getstate moduleNames w M fs = (fs, .error (.nameError "tempfile")) ∧
    setstate moduleNames w2 state fs = (fs, .error (.nameError "tempfile")) := by
  have h : "tempfile" ∉ moduleNames := by decide
  constructor
  · simp [getstate, h]
  · simp [setstate, h]

/-- Claim C1 (the code contradicts it): the capture-restore round trip
never reaches evaluation — under the module's actual imports,
`restore(capture(M))` is the `NameError` propagated out of capture, for
every model, every oracle outcome and every file system, so the restored
object's evaluation cannot equal the original's. -/
theorem roundtrip_never_restores (w : GetstateWorld) (w2 : SetstateWorld)
    (M : AmiciPyABCModel) (fs : FS) :
    pickleRoundtrip moduleNames w w2 M fs = .error (.nameError "tempfile") := by
  have h : "tempfile" ∉ moduleNames := by decide
  simp [pickleRoundtrip, getstate, h]

/-- Claim C9 (the code contradicts it): capture never produces a snapshot
mapping — under the module's actual imports, `__getstate__` raises before
its return statement, for every model, oracle outcome and file system. -/
theorem capture_returns_no_snapshot (w : GetstateWorld)
    (M : AmiciPyABCModel) (fs : FS) :
    (getstate moduleNames w M fs).2 = .error (.nameError "tempfile") := by
  have h : "tempfile" ∉ moduleNames := by decide
  simp [getstate, h]

/-- Claim C7: when the solver-settings export (during capture) or import
(during restore) call raises `AttributeError` — the failure of an AMICI
build without HDF5 support — the exception is caught once at that call,
its argument tuple is extended with the human-readable HDF5 hint (in
restore, an empty tuple is first replaced by `('',)`), and it is
re-raised, preserving the original arguments as context; this presumes an
environment binding `tempfile` and `os`, without which the call site is
unreachable. -/
theorem hdf5_failure_hinted (env : List String) (w : GetstateWorld)
    (w2 : SetstateWorld) (M : AmiciPyABCModel)
    (state : List (String × Attr)) (fs fs2 : FS)
    (gargs sargs : List String) (b : ByteStr)
    (henv1 : "tempfile" ∈ env) (henv2 : "os" ∈ env)
    (hw : w.writeSS = .error (.attributeError gargs))
    (hb : dget state "amici_solver_settings" = some (.bytes b))
    (hwr : w2.writeErr = none)
    (hr : w2.readSSErr = some (.attributeError sargs)) :
    (getstate env w M fs).2
      = .error (.attributeError (gargs ++ [hintPickle])) ∧
    (setstate env w2 state fs2).2
      = .error (.attributeError
          ((if sargs.isEmpty then [""] else sargs) ++ [hintUnpickle])) := by
  constructor
  · simp [getstate, henv1, hw, hintedGet, finallyCleanup, henv2]
  · simp [setstate, henv1, hb, hwr, hr, hintedSet, finallyCleanup, henv2]

theorem hdf5_failure_hinted_witness :
    (getstate ["tempfile", "os"] ⟨.error (.attributeError ["boom"]), none⟩
        ⟨0, 0, 0, ["a"], [], [], false, false⟩ ⟨[]⟩).2
      = .error (.attributeError (["boom"] ++ [hintPickle])) ∧
    (setstate ["tempfile", "os"] ⟨0, 0, none, some (.attributeError [])⟩
        [("amici_solver_settings", .bytes [1, 2])] ⟨[]⟩).2
      = .error (.attributeError
          ((if List.isEmpty ([] : List String) then [""]
            else ([] : List String)) ++ [hintUnpickle])) :=
  hdf5_failure_hinted ["tempfile", "os"]
    ⟨.error (.attributeError ["boom"]), none⟩
    ⟨0, 0, none, some (.attributeError [])⟩
    ⟨0, 0, 0, ["a"], [], [], false, false⟩
    [("amici_solver_settings", .bytes [1, 2])] ⟨[]⟩ ⟨[]⟩
    ["boom"] [] [1, 2] (by decide) (by decide) rfl rfl rfl rfl

/-! ### Temporary-file cleanup (claim C8) -/

theorem cleanB_cleanup (l : List TempEntry) (p : ℕ)
    (h : ∀ e ∈ l, e.path ≠ p → (!e.fdOpen && !e.onDisk) = true) :
    (((FS.mk l).closeFd p).removeFile p).cleanB = true := by
  have hcomp : (((FS.mk l).closeFd p).removeFile p).temps
      = l.map fun e => if e.path = p
          then { e with fdOpen := false, onDisk := false } else e := by
    show (l.map _).map _ = _
    rw [List.map_map]
    apply List.map_congr_left
    intro e _
    by_cases hp : e.path = p
    · simp [Function.comp, hp]
    · simp [Function.comp, hp]
  rw [FS.cleanB, hcomp]
  apply List.all_eq_true.mpr
  intro x hx
  rcases List.mem_map.mp hx with ⟨e, he, rfl⟩
  by_cases hp : e.path = p
  · simp [hp]
  · simp only [if_neg hp]
    exact h e he hp

theorem mkstemp_entries_ok (fs : FS) (hfs : fs.cleanB = true) :
    ∀ e ∈ (fs.mkstemp).1.temps, e.path ≠ (fs.mkstemp).2 →
    (!e.fdOpen && !e.onDisk) = true := by
  intro e he hne
  simp only [FS.mkstemp, List.mem_append, List.mem_singleton] at he
  rcases he with he | rfl
  · exact List.all_eq_true.mp hfs e he
  · exact absurd rfl hne

theorem writeTo_entries_ok (fs : FS) (p' p : ℕ) (b : ByteStr)
    (h : ∀ e ∈ fs.temps, e.path ≠ p → (!e.fdOpen && !e.onDisk) = true) :
    ∀ e ∈ (fs.writeTo p' b).temps, e.path ≠ p →
    (!e.fdOpen && !e.onDisk) = true := by
  simp only [FS.writeTo, List.mem_map]
  rintro x ⟨e, he, rfl⟩
  by_cases hp : e.path = p'
  · simp only [if_pos hp]
    exact h e he
  · simp only [if_neg hp]
    exact h e he

/-- Claim C8: on every exit path of capture and of restore — the
name-resolution failure, a failed export/import, a failed temp-file read
or write, and the normal return — no open descriptor and no on-disk
temporary file remains: from a clean file system both operations return a
clean file system, for every environment binding `os` whenever it binds
`tempfile` (the module's actual environment binds neither; the intended
one binds both) and for every oracle outcome. -/
theorem no_temp_file_leak (env : List String) (w : GetstateWorld)
    (w2 : SetstateWorld) (M : AmiciPyABCModel)
    (state : List (String × Attr)) (fs : FS)
    (henv : "tempfile" ∈ env → "os" ∈ env)
    (hfs : fs.cleanB = true) :
    ((getstate env w M fs).1).cleanB = true ∧
    ((setstate env w2 state fs).1).cleanB = true := by
  by_cases htf : "tempfile" ∈ env
  · have hos : "os" ∈ env := henv htf
    have hbase := mkstemp_entries_ok fs hfs
    constructor
    · rcases hws : w.writeSS with e | content
      · simp only [getstate, if_pos htf, hws, finallyCleanup, if_pos hos]
        exact cleanB_cleanup _ _ hbase
      · rcases hre : w.readErr with _ | e <;>
        · simp only [getstate, if_pos htf, hws, hre, finallyCleanup,
            if_pos hos]
          exact cleanB_cleanup _ _ (writeTo_entries_ok _ _ _ _ hbase)
    · rcases hget : dget state "amici_solver_settings" with _ | a
      · simp only [setstate, if_pos htf, hget, finallyCleanup, if_pos hos]
        exact cleanB_cleanup _ _ hbase
      · match a with
        | .bytes b =>
          rcases hwe : w2.writeErr with _ | e
          · rcases hrs : w2.readSSErr with _ | e <;>
            · simp only [setstate, if_pos htf, hget, hwe, hrs,
                finallyCleanup, if_pos hos]
              exact cleanB_cleanup _ _ (writeTo_entries_ok _ _ _ _ hbase)
          · simp only [setstate, if_pos htf, hget, hwe, finallyCleanup,
              if_pos hos]
            exact cleanB_cleanup _ _ hbase
        | .nat n =>
          simp only [setstate, if_pos htf, hget, finallyCleanup, if_pos hos]
          exact cleanB_cleanup _ _ hbase
        | .strs l =>
          simp only [setstate, if_pos htf, hget, finallyCleanup, if_pos hos]
          exact cleanB_cleanup _ _ hbase
        | .nums l =>
          simp only [setstate, if_pos htf, hget, finallyCleanup, if_pos hos]
          exact cleanB_cleanup _ _ hbase
        | .bool bb =>
          simp only [setstate, if_pos htf, hget, finallyCleanup, if_pos hos]
          exact cleanB_cleanup _ _ hbase
  · constructor
    · simp only [getstate, if_neg htf]
      exact hfs
    · simp only [setstate, if_neg htf]
      exact hfs

theorem no_temp_file_leak_witness :
    ((getstate ["tempfile", "os"] ⟨.ok [3], none⟩
        ⟨0, 0, 0, ["a"], [], [], false, false⟩ ⟨[]⟩).1).cleanB = true ∧
    ((setstate ["tempfile", "os"] ⟨0, 0, none, none⟩
        [("amici_solver_settings", .bytes [3])] ⟨[]⟩).1).cleanB = true :=
  no_temp_file_leak ["tempfile", "os"] ⟨.ok [3], none⟩ ⟨0, 0, none, none⟩
    ⟨0, 0, 0, ["a"], [], [], false, false⟩
    [("amici_solver_settings", .bytes [3])] ⟨[]⟩
    (fun _ => by decide) (by decide)

end PyabcPetabAmici
